import Mathlib

/-!
# OpenGL tutorials: the glyph atlas of `text02_atlas/text.cpp` and the start-up code

A shallow embedding of `src/text02_atlas/text.cpp` and of `init_resources`/`main` of
`src/tut04_transform-sdl2/triangle.cpp`.

Conventions of the embedding.
* Every `float` operation of the source (a conversion from `int`, a product, a sum, a
  quotient) goes through a rounding function `fl : ℚ → ℚ`, a parameter of the model.
  `round32` is IEEE binary32 rounding to nearest, ties to even, as the program runs it
  (each operation rounded once, no fused multiply-add; overflow to infinity and NaN
  do not occur in the statements).  `noRounding` is exact arithmetic, for the
  statements made in exact arithmetic.
* Bitmap dimensions and the `int` accumulators `minw`, `minh`, `o` are natural numbers;
  bearings and advances are integers.  The statements concern runs in which no `int`
  overflows.
* FreeType and OpenGL are the environment: a font is a function from codepoints to
  the outcome of `FT_Load_Char`, the same in both loops of the constructor, and the
  calls into OpenGL that matter are recorded in the result.
* A text is a C string over the `char` values `0 .. 127`, the index range of the table
  `c[128]`; other values would index outside the table and are outside the model.
* `BUFSIZ` of `<stdio.h>` is a parameter of `file_read`; allocation does not fail and
  the stream has no I/O error.
-/

set_option autoImplicit false
set_option linter.dupNamespace false

/-! ## `float` arithmetic -/

/-- The integer nearest to `q`, the even one of the two when `q` lies half-way. -/
def roundHalfEven (q : ℚ) : Int :=
  let f := ⌊q⌋
  if q - f < 1 / 2 then f
  else if 1 / 2 < q - f then f + 1
  else if f % 2 = 0 then f
  else f + 1

/-- The spacing of the binary32 numbers around `x`: `2 ^ (e - 23)` where
`2 ^ e ≤ |x| < 2 ^ (e + 1)`, and `2 ^ (-149)` in the subnormal range `e < -126`. -/
def ulp (x : ℚ) : ℚ := (2 : ℚ) ^ (max (Int.log 2 |x|) (-126) - 23)

/-- The binary32 number nearest to `x`, ties to even: what storing the exact result
`x` of an operation in a `float` gives. -/
def round32 (x : ℚ) : ℚ := (roundHalfEven (x / ulp x) : ℚ) * ulp x

/-- Exact arithmetic: nothing is rounded. -/
def noRounding (x : ℚ) : ℚ := x

/-! ## Start-up sequences -/

/-- A start-up sequence as the specification describes it: the steps are made in
order, each with its outcome (`true` is success); the first failure ends the sequence
with result 0 and no later step is made; when every step succeeds the result is 1. -/
def runFrom {α : Type} (done : List α) : List (α × Bool) → Int × List α
  | [] => (1, done)
  | (step, ok) :: rest =>
    if ok then runFrom (done ++ [step]) rest
    else (0, done ++ [step])

/-- A start-up sequence run from its first step: the result and the steps made. -/
def runUntilFailure {α : Type} (steps : List (α × Bool)) : Int × List α :=
  runFrom [] steps

/-! ## text02: data model -/

namespace text02

/-- The fields of `face->glyph` that the program reads after a successful
`FT_Load_Char(face, i, FT_LOAD_RENDER)`. -/
structure GlyphSlot where
  /-- Field `bitmap.width`. -/
  width : Nat
  /-- Field `bitmap.rows`. -/
  rows : Nat
  /-- Field `bitmap.buffer`, the pixels handed to `glTexSubImage2D`. -/
  buffer : List Nat
  /-- Field `advance.x`, in 26.6 fixed point. -/
  advance_x : Int
  /-- Field `advance.y`, in 26.6 fixed point. -/
  advance_y : Int
  /-- Field `bitmap_left`. -/
  bitmap_left : Int
  /-- Field `bitmap_top`. -/
  bitmap_top : Int
deriving DecidableEq, Repr

/-- A face at a fixed pixel size: `none` is a non-zero return of `FT_Load_Char`
(the load failed), `some g` is success with glyph slot `g`. -/
abbrev Font := Nat → Option GlyphSlot

/-- One entry of the array `c[128]` of `struct atlas`. -/
structure CharInfo where
  ax : ℚ
  ay : ℚ
  bw : ℚ
  bh : ℚ
  bl : ℚ
  bt : ℚ
  tx : ℚ
deriving DecidableEq, Repr

/-- The record `memset(c, 0, sizeof c)` leaves in every entry. -/
def CharInfo.zero : CharInfo := ⟨0, 0, 0, 0, 0, 0, 0⟩

/-- One call `glTexSubImage2D(GL_TEXTURE_2D, 0, xoffset, yoffset, width, height, ..., pixels)`. -/
structure TexSubImage where
  xoffset : Nat
  yoffset : Nat
  width : Nat
  height : Nat
  pixels : List Nat
deriving DecidableEq, Repr

/-- The `struct atlas` after its constructor has run, together with the texture calls
the constructor made: `texImage` is the (width, height) pair given to `glTexImage2D`
and `uploads` lists the `glTexSubImage2D` calls in program order. -/
structure atlas where
  w : ℚ
  h : ℚ
  c : Fin 128 → CharInfo
  texImage : Nat × Nat
  uploads : List TexSubImage

/-- The codepoints both loops of the constructor run over: `for (i = 32; i < 128; i++)`. -/
def codepoints : List Nat := List.range' 32 96

/-- First loop of the constructor (text.cpp 159-166) over the codepoints `cps`,
from the accumulators `(minw, minh)`. -/
def atlas.measure (font : Font) : List Nat → Nat × Nat → Nat × Nat
  | [], acc => acc
  | i :: rest, (minw, minh) =>
    match font i with
    | none => atlas.measure font rest (minw, minh)
    | some g => atlas.measure font rest (minw + (g.width + 1), max minh g.rows)

/-- Assignment `c[i] = r`. -/
def setChar (c : Fin 128 → CharInfo) (i : Nat) (r : CharInfo) : Fin 128 → CharInfo :=
  fun k => if k.val = i then r else c k

/-- State of the second loop: the offset `o`, the table `c` and the uploads so far. -/
structure PasteState where
  o : Nat
  c : Fin 128 → CharInfo
  uploads : List TexSubImage

/-- The assignments to `c[i]` of the second loop (text.cpp 200-209), for the glyph
slot `g`, the current offset `o` and the member `w`: each integer is converted to
`float`, and `o / w` converts `o` and divides in `float`. -/
def glyphRecord (fl : ℚ → ℚ) (g : GlyphSlot) (o : Nat) (w : ℚ) : CharInfo :=
  { ax := fl ((g.advance_x >>> 6 : Int) : ℚ)
    ay := fl ((g.advance_y >>> 6 : Int) : ℚ)
    bw := fl (g.width : ℚ)
    bh := fl (g.rows : ℚ)
    bl := fl (g.bitmap_left : ℚ)
    bt := fl (g.bitmap_top : ℚ)
    tx := fl (fl (o : ℚ) / w) }

/-- Second loop of the constructor (text.cpp 191-212) over the codepoints `cps`;
`w` is the member `w` set before the loop. -/
def atlas.paste (fl : ℚ → ℚ) (font : Font) (w : ℚ) : List Nat → PasteState → PasteState
  | [], s => s
  | i :: rest, s =>
    match font i with
    | none => atlas.paste fl font w rest s
    | some g =>
      atlas.paste fl font w rest
        { o := s.o + (g.width + 1)
          c := setChar s.c i (glyphRecord fl g s.o w)
          uploads := s.uploads ++ [⟨s.o, 0, g.width, g.rows, g.buffer⟩] }

/-- The constructor with its two loops running over `cps` instead of 32..127.  The
assignments `w = minw; h = minh;` convert the `int` sizes to `float`. -/
def atlas.over (fl : ℚ → ℚ) (font : Font) (cps : List Nat) : atlas :=
  let m := atlas.measure font cps (0, 0)
  let w : ℚ := fl (m.1 : ℚ)
  let h : ℚ := fl (m.2 : ℚ)
  let s := atlas.paste fl font w cps ⟨0, fun _ => CharInfo.zero, []⟩
  { w := w, h := h, c := s.c, texImage := (m.1, m.2), uploads := s.uploads }

/-- The constructor `atlas::atlas(face, height)` (text.cpp 149-216); `font` is `face`
at pixel size `height`, `fl` the `float` arithmetic. -/
def atlas.atlas (fl : ℚ → ℚ) (font : Font) : atlas := atlas.over fl font codepoints

/-! ### Quantities the statements about the constructor refer to -/

/-- Width a codepoint takes in the strip: bitmap width plus one pixel of padding for a
codepoint that loads, nothing for one that fails. -/
def paddedWidth (font : Font) (i : Nat) : Nat :=
  match font i with
  | some g => g.width + 1
  | none => 0

/-- The offset `o_i`: the padded widths of the codepoints `32 ≤ j < i`. -/
def glyphOffset (font : Font) (i : Nat) : Nat :=
  ∑ j in Finset.Ico 32 i, paddedWidth font j

/-- The padded widths of the codepoints `a ≤ j < i`, as a sum over a list. -/
def offsetFrom (font : Font) (a i : Nat) : Nat :=
  ((List.range' a (i - a)).map (paddedWidth font)).sum

/-- A small face for the examples: only `A` (3 x 5 pixels) and `B` (2 x 7 pixels) load. -/
def sampleFont : Font := fun i =>
  if i = 65 then some ⟨3, 5, [1, 2, 3], 256, 0, 1, 4⟩
  else if i = 66 then some ⟨2, 7, [4, 5], 192, 0, 0, 7⟩
  else none

/-- The upload expected for codepoint `i`: its bitmap at `(o_i, 0)`, none if the load fails. -/
def expectedUpload (font : Font) (i : Nat) : Option TexSubImage :=
  (font i).map fun g => ⟨glyphOffset font i, 0, g.width, g.rows, g.buffer⟩

/-! ### `render_text` -/

/-- The vertex type `struct point`: position `(x, y)` and texture coordinates `(s, t)`. -/
structure point where
  x : ℚ
  y : ℚ
  s : ℚ
  t : ℚ
deriving DecidableEq, Repr

/-- The variables the loop of `render_text` updates: the pen `(x, y)`, the entries
`coords[0 .. c)` written so far and the counter `c`. -/
structure RenderState where
  x : ℚ
  y : ℚ
  coords : List point
  c : Nat

/-- The loop `for (p = text; *p; p++)` of `render_text` (text.cpp 314-335), every
`float` product, sum, difference and quotient rounded by `fl`.  A text is the list of
`char` values stored from `text` on; the loop stops at the first NUL (the end of the
list stands for the terminating NUL).  The table `c` has 128 entries, so the
characters are the values `0 .. 127`; the test `!w || !h` is `w = 0 ∨ h = 0`. -/
def render_text.loop (fl : ℚ → ℚ) (a : atlas) (sx sy : ℚ) :
    List (Fin 128) → RenderState → RenderState
  | [], st => st
  | p :: rest, st =>
    if p.val = 0 then st
    else
      let x2 := fl (st.x + fl ((a.c p).bl * sx))
      let y2 := fl (-st.y - fl ((a.c p).bt * sy))
      let w := fl ((a.c p).bw * sx)
      let h := fl ((a.c p).bh * sy)
      let x := fl (st.x + fl ((a.c p).ax * sx))
      let y := fl (st.y + fl ((a.c p).ay * sy))
      let s2 := fl ((a.c p).tx + fl ((a.c p).bw / a.w))
      let t2 := fl ((a.c p).bh / a.h)
      if w = 0 ∨ h = 0 then render_text.loop fl a sx sy rest { st with x := x, y := y }
      else
        render_text.loop fl a sx sy rest
          { x := x
            y := y
            coords := st.coords ++
              [ ⟨x2,          -y2           , (a.c p).tx, 0⟩,
                ⟨fl (x2 + w), -y2           , s2,         0⟩,
                ⟨x2,          fl (-y2 - h)  , (a.c p).tx, t2⟩,
                ⟨fl (x2 + w), -y2           , s2,         0⟩,
                ⟨x2,          fl (-y2 - h)  , (a.c p).tx, t2⟩,
                ⟨fl (x2 + w), fl (-y2 - h)  , s2,         t2⟩ ]
            c := st.c + 6 }

/-- The C library's `strlen`: the number of characters before the first NUL. -/
def strlen : List (Fin 128) → Nat
  | [] => 0
  | p :: rest => if p.val = 0 then 0 else strlen rest + 1

/-- What `render_text` hands to OpenGL: `capacity` is the number of entries of the
array `coords[6 * strlen(text)]`, `coords` the entries the loop wrote, `count` the
vertex count `c` given to `glDrawArrays(GL_TRIANGLES, 0, c)`. -/
structure Draw where
  capacity : Nat
  coords : List point
  count : Nat

/-- The function `render_text(text, a, x, y, sx, sy)` (text.cpp 298-342). -/
def render_text (fl : ℚ → ℚ) (text : List (Fin 128)) (a : atlas) (x y sx sy : ℚ) : Draw :=
  let st := render_text.loop fl a sx sy text ⟨x, y, [], 0⟩
  { capacity := 6 * strlen text, coords := st.coords, count := st.c }

/-! ### Quantities the statements about `render_text` refer to -/

/-- The characters of a text: those before the first NUL. -/
def chars (text : List (Fin 128)) : List (Fin 128) :=
  text.takeWhile fun p => decide (p.val ≠ 0)

/-- A character is drawn when its scaled width `bw * sx` and its scaled height
`bh * sy`, as computed in the arithmetic `fl`, are both non-zero. -/
def drawn (fl : ℚ → ℚ) (a : atlas) (sx sy : ℚ) (p : Fin 128) : Bool :=
  decide (fl ((a.c p).bw * sx) ≠ 0 ∧ fl ((a.c p).bh * sy) ≠ 0)

/-- The pen after the characters of `l` before index `k`, starting from `(x, y)`:
`(x + sx * sum of ax, y + sy * sum of ay)` over the first `k` characters. -/
def penAt (a : atlas) (sx sy x y : ℚ) (l : List (Fin 128)) (k : Nat) : ℚ × ℚ :=
  (x + sx * ((l.take k).map fun p => (a.c p).ax).sum,
   y + sy * ((l.take k).map fun p => (a.c p).ay).sum)

/-- An axis-aligned rectangle given by its top-left corner and its (signed) width and
height, the height extending downward. -/
structure Rect where
  left : ℚ
  top : ℚ
  width : ℚ
  height : ℚ
deriving DecidableEq, Repr

def Rect.topLeft (r : Rect) : ℚ × ℚ := (r.left, r.top)

def Rect.topRight (r : Rect) : ℚ × ℚ := (r.left + r.width, r.top)

def Rect.bottomLeft (r : Rect) : ℚ × ℚ := (r.left, r.top - r.height)

def Rect.bottomRight (r : Rect) : ℚ × ℚ := (r.left + r.width, r.top - r.height)

/-- The points of a rectangle: the corner moved by a share `s` of the width to the
right and a share `t` of the height downward, `0 ≤ s, t ≤ 1`. -/
def Rect.region (r : Rect) : Set (ℚ × ℚ) :=
  {P | ∃ s t : ℚ, 0 ≤ s ∧ s ≤ 1 ∧ 0 ≤ t ∧ t ≤ 1 ∧
    P = (r.left + s * r.width, r.top - t * r.height)}

/-- The points `left ≤ X ≤ left + width`, `top - height ≤ Y ≤ top`. -/
def Rect.box (r : Rect) : Set (ℚ × ℚ) :=
  {P | r.left ≤ P.1 ∧ P.1 ≤ r.left + r.width ∧ r.top - r.height ≤ P.2 ∧ P.2 ≤ r.top}

/-- The filled triangle with corners `A`, `B`, `C`. -/
def triangle (A B C : ℚ × ℚ) : Set (ℚ × ℚ) :=
  {P | ∃ u v w : ℚ, 0 ≤ u ∧ 0 ≤ v ∧ 0 ≤ w ∧ u + v + w = 1 ∧
    P = (u * A.1 + v * B.1 + w * C.1, u * A.2 + v * B.2 + w * C.2)}

/-- The two triangles that split a rectangle along the diagonal from the top-right
to the bottom-left corner, as six vertices. -/
def Rect.triangles (r : Rect) : List (ℚ × ℚ) :=
  [r.topLeft, r.topRight, r.bottomLeft, r.topRight, r.bottomLeft, r.bottomRight]

/-- The rectangle of character `p` with the pen at `pen`: top-left corner
`(pen.x + bl * sx, pen.y + bt * sy)`, width `bw * sx`, height `bh * sy`. -/
def glyphRect (a : atlas) (sx sy : ℚ) (p : Fin 128) (pen : ℚ × ℚ) : Rect :=
  ⟨pen.1 + (a.c p).bl * sx, pen.2 + (a.c p).bt * sy, (a.c p).bw * sx, (a.c p).bh * sy⟩

/-- The position of a vertex. -/
def point.pos (p : point) : ℚ × ℚ := (p.x, p.y)

/-- A short text for the examples: `A`, a blank, `B`, then the terminating NUL and a
byte behind it. -/
def sampleText : List (Fin 128) := [65, 32, 66, 0, 65]

/-! ### `file_read` -/

/-- The variables of the loop of `file_read`: `res` holds the bytes stored in the
buffer so far, `pos` and `eof` are the position and end-of-file indicator of the
stream `in`. -/
structure ReadState where
  res_size : Nat
  res : List Nat
  nb_read_total : Nat
  pos : Nat
  eof : Bool
deriving DecidableEq, Repr

/-- The call `fread(p, 1, n, in)` on a stream over `file` at position `pos`, without
I/O error: the bytes delivered, and whether the end-of-file indicator is set (it is
when fewer than `n` bytes were left). -/
def fread (file : List Nat) (pos n : Nat) : List Nat × Bool :=
  let chunk := (file.drop pos).take n
  (chunk, decide (chunk.length < n))

/-- One pass through the body of the `while` loop of `file_read` once the buffer is
large enough (text.cpp 59-60). -/
def file_read.readChunk (BUFSIZ : Nat) (file : List Nat) (s : ReadState) : ReadState :=
  let r := fread file s.pos BUFSIZ
  { s with
    res := s.res.take s.nb_read_total ++ r.1
    nb_read_total := s.nb_read_total + r.1.length
    pos := s.pos + r.1.length
    eof := r.2 }

/-- The loop `while (!feof(in) && !ferror(in))` of `file_read` (text.cpp 53-61), run
for at most `fuel` tests of its condition; `none` when the fuel runs out first.
`BUFSIZ` is the constant of `<stdio.h>`. -/
def file_read.loop (BUFSIZ : Nat) (file : List Nat) : Nat → ReadState → Option ReadState
  | 0, _ => none
  | fuel + 1, s =>
    if s.eof then some s
    else if s.nb_read_total + BUFSIZ > s.res_size then
      if s.res_size > 10 * 1024 * 1024 then some s
      else
        file_read.loop BUFSIZ file fuel
          (file_read.readChunk BUFSIZ file { s with res_size := s.res_size * 2 })
    else file_read.loop BUFSIZ file fuel (file_read.readChunk BUFSIZ file s)

/-- A `char*` result: `NULL` or a buffer with the bytes it holds. -/
inductive Buffer where
  | NULL
  | bytes (content : List Nat)
deriving DecidableEq, Repr

/-- The function `file_read(filename)` (text.cpp 44-67).  The argument `file` is what
`fopen(filename, "rb")` finds: `none` when the file cannot be opened, else the
bytes of the file.  The result is `none` only if the loop has not ended after
`length + 2` tests of its condition. -/
def file_read (BUFSIZ : Nat) (file : Option (List Nat)) : Option Buffer :=
  match file with
  | none => some Buffer.NULL
  | some content =>
    match file_read.loop BUFSIZ content (content.length + 2) ⟨BUFSIZ, [], 0, 0, false⟩ with
    | none => none
    | some s => some (Buffer.bytes (s.res.take s.nb_read_total ++ [0]))

/-- What holds of the variables of the loop of `file_read` each time its condition is
tested: the buffer holds the first `nb_read_total` bytes of the file, the stream stands
right behind them, only whole chunks were read while the end of file is not set, and
the buffer size is a multiple of `BUFSIZ` that has been doubled only from sizes of at
most 10 MiB. -/
def ReadInv (BUFSIZ : Nat) (file : List Nat) (s : ReadState) : Prop :=
  s.res = file.take s.nb_read_total ∧
  s.pos = s.nb_read_total ∧
  s.nb_read_total ≤ file.length ∧
  (s.eof = false → BUFSIZ ∣ s.nb_read_total) ∧
  (s.eof = true → s.nb_read_total = file.length) ∧
  BUFSIZ ∣ s.res_size ∧
  s.nb_read_total ≤ s.res_size ∧
  BUFSIZ ≤ s.res_size ∧
  s.res_size ≤ max BUFSIZ (2 * (10 * 1024 * 1024))

/-! ### `create_shader`, `init_resources`, `main` -/

/-- What the environment answers while `create_shader(filename, type)` runs: the result
of `file_read(filename)`, the name `glCreateShader` returns, and the value
`glGetShaderiv(res, GL_COMPILE_STATUS, &compile_ok)` stores. -/
structure ShaderEnv where
  source : Buffer
  res : Nat
  compile_ok : Int

/-- The constant `GL_FALSE`. -/
def GL_FALSE : Int := 0

/-- The function `create_shader` (text.cpp 98-120): 0 on failure, else the shader name. -/
def create_shader (e : ShaderEnv) : Nat :=
  match e.source with
  | Buffer.NULL => 0
  | Buffer.bytes _ => if e.compile_ok = GL_FALSE then 0 else e.res

/-- The calls of the start-up code that the model records, in the order made. -/
inductive Call where
  | FT_Init_FreeType
  | FT_New_Face
  | new_atlas (height : Nat)
  | create_shader (filename : String)
  | glLinkProgram
  | glGetAttribLocation (name : String)
  | glGetUniformLocation (name : String)
  | glGenBuffers
  | glutMainLoop
  | free_resources
deriving DecidableEq, Repr

/-- The answers of FreeType, OpenGL and GLEW during start-up: the error codes of
`FT_Init_FreeType` and `FT_New_Face` (0 is success), the two shaders, the link status,
the three locations (-1 is failure), and for `main` the status of `glewInit`
(`GLEW_OK` is 0) and the flag `GLEW_VERSION_2_0`. -/
structure Env where
  FT_Init_FreeType : Int
  FT_New_Face : Int
  vs : ShaderEnv
  fs : ShaderEnv
  link_ok : Int
  attribute_coord : Int
  uniform_tex : Int
  uniform_color : Int
  glew_status : Int
  GLEW_VERSION_2_0 : Bool

/-- The function `init_resources` of text02 (text.cpp 227-291): its return value and
the calls it made. -/
def init_resources (e : Env) : Int × List Call :=
  let t := [Call.FT_Init_FreeType]
  if e.FT_Init_FreeType ≠ 0 then (0, t) else
  let t := t ++ [Call.FT_New_Face]
  if e.FT_New_Face ≠ 0 then (0, t) else
  let t := t ++ [Call.new_atlas 48, Call.new_atlas 24, Call.new_atlas 12]
  let t := t ++ [Call.create_shader "text.v.glsl"]
  if create_shader e.vs = 0 then (0, t) else
  let t := t ++ [Call.create_shader "text.f.glsl"]
  if create_shader e.fs = 0 then (0, t) else
  let t := t ++ [Call.glLinkProgram]
  if e.link_ok = 0 then (0, t) else
  let t := t ++ [Call.glGetAttribLocation "coord"]
  if e.attribute_coord = -1 then (0, t) else
  let t := t ++ [Call.glGetUniformLocation "tex"]
  if e.uniform_tex = -1 then (0, t) else
  let t := t ++ [Call.glGetUniformLocation "color"]
  if e.uniform_color = -1 then (0, t) else
  (1, t ++ [Call.glGenBuffers])

/-- The steps of `init_resources` of text02 in program order, each with its outcome;
building an atlas and `glGenBuffers` have no failure path. -/
def steps (e : Env) : List (Call × Bool) :=
  [ (Call.FT_Init_FreeType, decide (e.FT_Init_FreeType = 0)),
    (Call.FT_New_Face, decide (e.FT_New_Face = 0)),
    (Call.new_atlas 48, true),
    (Call.new_atlas 24, true),
    (Call.new_atlas 12, true),
    (Call.create_shader "text.v.glsl", decide (create_shader e.vs ≠ 0)),
    (Call.create_shader "text.f.glsl", decide (create_shader e.fs ≠ 0)),
    (Call.glLinkProgram, decide (e.link_ok ≠ 0)),
    (Call.glGetAttribLocation "coord", decide (e.attribute_coord ≠ -1)),
    (Call.glGetUniformLocation "tex", decide (e.uniform_tex ≠ -1)),
    (Call.glGetUniformLocation "color", decide (e.uniform_color ≠ -1)),
    (Call.glGenBuffers, true) ]

/-- An environment in which every step succeeds. -/
def sampleEnv : Env :=
  { FT_Init_FreeType := 0, FT_New_Face := 0,
    vs := ⟨Buffer.bytes [0], 1, 1⟩, fs := ⟨Buffer.bytes [0], 2, 1⟩,
    link_ok := 1, attribute_coord := 0, uniform_tex := 0, uniform_color := 1,
    glew_status := 0, GLEW_VERSION_2_0 := true }

/-- An environment in which the vertex shader file cannot be read and everything else
succeeds. -/
def missingShaderEnv : Env :=
  { sampleEnv with vs := ⟨Buffer.NULL, 0, 0⟩ }

/-- The function `main` of text02 (text.cpp 395-426), built with GLEW: its return
value and the calls made from the `glewInit` check on. -/
def main (e : Env) : Int × List Call :=
  if e.glew_status ≠ 0 then (1, []) else
  if !e.GLEW_VERSION_2_0 then (1, []) else
  let r := init_resources e
  if r.1 ≠ 0 then (0, r.2 ++ [Call.glutMainLoop, Call.free_resources])
  else (0, r.2 ++ [Call.free_resources])

end text02

/-! ## tut04: `init_resources` and `main` -/

namespace tut04

/-- The calls of the start-up code that the model records, in the order made. -/
inductive Call where
  | glBufferData
  | create_shader (filename : String)
  | glLinkProgram
  | glGetAttribLocation (name : String)
  | glGetUniformLocation (name : String)
  | mainLoop
  | free_resources
deriving DecidableEq, Repr

/-- The answers of SDL and OpenGL during start-up: whether `SDL_GL_CreateContext`
returned a context, the results of the two `create_shader` calls (0 is failure; the
function lives in `common/shader_utils`), the link status and the three locations
(-1 is failure). -/
structure Env where
  context : Bool
  vs : Nat
  fs : Nat
  link_ok : Int
  attribute_coord3d : Int
  attribute_v_color : Int
  uniform_m_transform : Int

/-- The function `init_resources` of tut04 (triangle.cpp 34-83): its return value and
the calls it made. -/
def init_resources (e : Env) : Int × List Call :=
  let t := [Call.glBufferData, Call.create_shader "triangle.v.glsl"]
  if e.vs = 0 then (0, t) else
  let t := t ++ [Call.create_shader "triangle.f.glsl"]
  if e.fs = 0 then (0, t) else
  let t := t ++ [Call.glLinkProgram]
  if e.link_ok = 0 then (0, t) else
  let t := t ++ [Call.glGetAttribLocation "coord3d"]
  if e.attribute_coord3d = -1 then (0, t) else
  let t := t ++ [Call.glGetAttribLocation "v_color"]
  if e.attribute_v_color = -1 then (0, t) else
  let t := t ++ [Call.glGetUniformLocation "m_transform"]
  if e.uniform_m_transform = -1 then (0, t) else
  (1, t)

/-- The steps of `init_resources` of tut04 in program order, each with its outcome;
filling the vertex buffer has no failure path. -/
def steps (e : Env) : List (Call × Bool) :=
  [ (Call.glBufferData, true),
    (Call.create_shader "triangle.v.glsl", decide (e.vs ≠ 0)),
    (Call.create_shader "triangle.f.glsl", decide (e.fs ≠ 0)),
    (Call.glLinkProgram, decide (e.link_ok ≠ 0)),
    (Call.glGetAttribLocation "coord3d", decide (e.attribute_coord3d ≠ -1)),
    (Call.glGetAttribLocation "v_color", decide (e.attribute_v_color ≠ -1)),
    (Call.glGetUniformLocation "m_transform", decide (e.uniform_m_transform ≠ -1)) ]

/-- An environment in which every step succeeds. -/
def sampleEnv : Env :=
  { context := true, vs := 1, fs := 2, link_ok := 1,
    attribute_coord3d := 0, attribute_v_color := 1, uniform_m_transform := 0 }

/-- The function `main` of tut04 (triangle.cpp 148-171): the exit status and the calls
made after the context was created. -/
def main (e : Env) : Int × List Call :=
  if !e.context then (1, []) else
  let r := init_resources e
  if r.1 = 0 then (1, r.2)
  else (0, r.2 ++ [Call.mainLoop, Call.free_resources])

end tut04

/-! ## Theorems: `float` arithmetic -/

theorem rhe_int (k : ℤ) : roundHalfEven (k : ℚ) = k := by
  simp [roundHalfEven]

theorem ulp_pos (x : ℚ) : 0 < ulp x := by
  unfold ulp
  positivity

theorem round32_zero : round32 0 = 0 := by
  simp [round32, roundHalfEven]

theorem round32_of_grid (x : ℚ) (m : ℤ) (h : x = (m : ℚ) * ulp x) : round32 x = x := by
  have hu := ulp_pos x
  have hq : x / ulp x = (m : ℚ) := by
    rw [div_eq_iff (ne_of_gt hu)]; exact h
  unfold round32
  rw [hq, rhe_int]
  exact h.symm

theorem two_zpow_nonneg_int (d : ℤ) (hd : 0 ≤ d) : ∃ m : ℤ, (2 : ℚ) ^ d = (m : ℚ) := by
  obtain ⟨n, rfl⟩ := Int.eq_ofNat_of_zero_le hd
  exact ⟨2 ^ n, by push_cast; rw [zpow_natCast]⟩

theorem grid_of_log_le (x : ℚ) (a : ℤ) (ha : -126 ≤ a) (hlog : Int.log 2 |x| ≤ a) (n : ℤ) :
    ∃ m : ℤ, (n : ℚ) * (2 : ℚ) ^ (a - 23) = (m : ℚ) * ulp x := by
  have hE : max (Int.log 2 |x|) (-126) ≤ a := max_le hlog ha
  obtain ⟨m, hm⟩ := two_zpow_nonneg_int (a - max (Int.log 2 |x|) (-126)) (by omega)
  refine ⟨n * m, ?_⟩
  have e : (2 : ℚ) ^ (a - 23)
      = (2 : ℚ) ^ (a - max (Int.log 2 |x|) (-126)) * ulp x := by
    unfold ulp
    rw [← zpow_add₀ (by norm_num : (2 : ℚ) ≠ 0)]
    congr 1
    ring
  rw [e, hm]
  push_cast
  ring

theorem log_le_of_lt (x : ℚ) (a : ℤ) (hx : 0 < x) (h : x < (2 : ℚ) ^ (a + 1)) :
    Int.log 2 x ≤ a := by
  have h2 : x < ((2 : ℕ) : ℚ) ^ (a + 1) := by simpa using h
  have := (Int.lt_zpow_iff_log_lt (by norm_num : 1 < 2) hx).mp h2
  omega

theorem le_log_of_le (x : ℚ) (a : ℤ) (hx : 0 < x) (h : (2 : ℚ) ^ a ≤ x) :
    a ≤ Int.log 2 x := by
  have h2 : ((2 : ℕ) : ℚ) ^ a ≤ x := by simpa using h
  exact (Int.zpow_le_iff_le_log (by norm_num : 1 < 2) hx).mp h2

theorem ulp_eq (x : ℚ) (a : ℤ) (ha : -126 ≤ a) (h1 : (2 : ℚ) ^ a ≤ |x|)
    (h2 : |x| < (2 : ℚ) ^ (a + 1)) : ulp x = (2 : ℚ) ^ (a - 23) := by
  have hpos : 0 < |x| := lt_of_lt_of_le (by positivity) h1
  have e : Int.log 2 |x| = a :=
    le_antisymm (log_le_of_lt _ a hpos h2) (le_log_of_le _ a hpos h1)
  unfold ulp
  rw [e, max_eq_left ha]

/-- Every natural number up to `2 ^ 24` is a binary32 number. -/
theorem round32_nat (n : ℕ) (hn : n ≤ 16777216) : round32 (n : ℚ) = n := by
  rcases Nat.eq_zero_or_pos n with h0 | hpos
  · subst h0; simpa using round32_zero
  have hx : (0 : ℚ) < n := by exact_mod_cast hpos
  have habs : |(n : ℚ)| = n := abs_of_pos hx
  rcases Nat.lt_or_ge n 16777216 with hlt | hge
  · have hlog : Int.log 2 |(n : ℚ)| ≤ 23 := by
      rw [habs]
      apply log_le_of_lt _ _ hx
      have : (n : ℚ) < 16777216 := by exact_mod_cast hlt
      have e : (2 : ℚ) ^ ((23 : ℤ) + 1) = 16777216 := by norm_num
      rw [e]
      exact this
    obtain ⟨m, hm⟩ := grid_of_log_le (n : ℚ) 23 (by norm_num) hlog n
    apply round32_of_grid _ m
    rw [← hm]; norm_num
  · have hn2 : n = 16777216 := by omega
    subst hn2
    have hu : ulp ((16777216 : ℕ) : ℚ) = 2 := by
      rw [ulp_eq _ 24 (by norm_num) (by norm_num) (by norm_num)]
      norm_num
    apply round32_of_grid _ 8388608
    rw [hu]; norm_num

theorem rhe_of_floor_lt (q : ℚ) (f : ℤ) (h1 : (f : ℚ) ≤ q) (h2 : q - f < 1 / 2) :
    roundHalfEven q = f := by
  have hf : ⌊q⌋ = f := Int.floor_eq_iff.mpr ⟨h1, by linarith⟩
  simp only [roundHalfEven, hf, h2, if_true]

namespace text02

theorem sum_Ico_eq_list (f : Nat → Nat) (a b : Nat) :
    ∑ j in Finset.Ico a b, f j = ((List.range' a (b - a)).map f).sum := by
  rw [Nat.Ico_eq_range']
  rfl

theorem measure_fst (font : Font) (l : List Nat) (acc : Nat × Nat) :
    (atlas.measure font l acc).1 = acc.1 + (l.map (paddedWidth font)).sum := by
  induction l generalizing acc with
  | nil => simp [atlas.measure]
  | cons i rest ih =>
    obtain ⟨minw, minh⟩ := acc
    cases hf : font i with
    | none => simp [atlas.measure, hf, ih, paddedWidth]
    | some g => simp [atlas.measure, hf, ih, paddedWidth]; omega

theorem measure_snd_attained (font : Font) (l : List Nat) (acc : Nat × Nat) :
    (atlas.measure font l acc).2 = acc.2 ∨
      ∃ i ∈ l, ∃ g, font i = some g ∧ g.rows = (atlas.measure font l acc).2 := by
  induction l generalizing acc with
  | nil => left; simp [atlas.measure]
  | cons j rest ih =>
    obtain ⟨minw, minh⟩ := acc
    cases hf : font j with
    | none =>
      rcases ih (minw, minh) with h | ⟨i, hi, g, hg, h⟩
      · left; simpa [atlas.measure, hf] using h
      · right; exact ⟨i, List.mem_cons_of_mem _ hi, g, hg, by simpa [atlas.measure, hf] using h⟩
    | some g2 =>
      rcases ih (minw + (g2.width + 1), max minh g2.rows) with h | ⟨i, hi, g, hg, h⟩
      · rcases le_total minh g2.rows with hle | hle
        · right
          refine ⟨j, List.mem_cons_self _ _, g2, hf, ?_⟩
          simp only [atlas.measure, hf]
          rw [h]; simp [max_eq_right hle]
        · left
          simp only [atlas.measure, hf]
          rw [h]; simp [max_eq_left hle]
      · right
        exact ⟨i, List.mem_cons_of_mem _ hi, g, hg, by simpa [atlas.measure, hf] using h⟩

theorem paste_o (fl : ℚ → ℚ) (font : Font) (w : ℚ) (l : List Nat) (s : PasteState) :
    (atlas.paste fl font w l s).o = s.o + (l.map (paddedWidth font)).sum := by
  induction l generalizing s with
  | nil => simp [atlas.paste]
  | cons i rest ih =>
    cases hf : font i with
    | none => simp [atlas.paste, hf, ih, paddedWidth]
    | some g => simp [atlas.paste, hf, ih, paddedWidth]; omega

theorem paste_c_of_not_mem (fl : ℚ → ℚ) (font : Font) (w : ℚ) (l : List Nat) (s : PasteState)
    (k : Fin 128) (hk : k.val ∉ l) : (atlas.paste fl font w l s).c k = s.c k := by
  induction l generalizing s with
  | nil => simp [atlas.paste]
  | cons i rest ih =>
    have hne : k.val ≠ i := fun h => hk (h ▸ List.mem_cons_self _ _)
    have hrest : k.val ∉ rest := fun h => hk (List.mem_cons_of_mem _ h)
    cases hf : font i with
    | none => simpa [atlas.paste, hf] using ih s hrest
    | some g =>
      simp only [atlas.paste, hf]
      rw [ih _ hrest]
      simp [setChar, hne]

theorem paste_c_of_none (fl : ℚ → ℚ) (font : Font) (w : ℚ) (l : List Nat) (s : PasteState)
    (k : Fin 128) (hk : font k.val = none) : (atlas.paste fl font w l s).c k = s.c k := by
  induction l generalizing s with
  | nil => simp [atlas.paste]
  | cons i rest ih =>
    cases hf : font i with
    | none => simpa [atlas.paste, hf] using ih s
    | some g =>
      have hne : k.val ≠ i := fun h => by rw [h, hf] at hk; exact Option.noConfusion hk
      simp only [atlas.paste, hf]
      rw [ih _]
      simp [setChar, hne]

theorem offsetFrom_self (font : Font) (a : Nat) : offsetFrom font a a = 0 := by
  simp [offsetFrom]

theorem offsetFrom_step (font : Font) (a i : Nat) (h : a < i) :
    offsetFrom font a i = paddedWidth font a + offsetFrom font (a + 1) i := by
  unfold offsetFrom
  have e : i - a = (i - (a + 1)) + 1 := by omega
  rw [e, List.range'_succ]
  simp

theorem glyphOffset_eq_offsetFrom (font : Font) (i : Nat) :
    glyphOffset font i = offsetFrom font 32 i := by
  unfold glyphOffset offsetFrom
  exact sum_Ico_eq_list _ _ _

theorem paste_range_c (fl : ℚ → ℚ) (font : Font) (w : ℚ) (n : Nat) :
    ∀ (a : Nat) (s : PasteState) (k : Fin 128) (g : GlyphSlot),
      a ≤ k.val → k.val < a + n → font k.val = some g →
      (atlas.paste fl font w (List.range' a n) s).c k
        = glyphRecord fl g (s.o + offsetFrom font a k.val) w := by
  induction n with
  | zero => intro a s k g h1 h2; omega
  | succ n ih =>
    intro a s k g h1 h2 hg
    rw [List.range'_succ]
    rcases Nat.eq_or_lt_of_le h1 with heq | hlt
    · -- the head of the range is `k` itself
      have hnot : k.val ∉ List.range' (a + 1) n := by
        simp [List.mem_range'_1]; omega
      have hfa : font a = some g := by rw [heq]; exact hg
      simp only [atlas.paste, hfa]
      rw [paste_c_of_not_mem fl font w _ _ k hnot]
      simp [setChar, heq, offsetFrom_self]
    · have hstep := offsetFrom_step font a k.val hlt
      cases hf : font a with
      | none =>
        simp only [atlas.paste, hf]
        rw [ih (a + 1) s k g (by omega) (by omega) hg, hstep]
        simp [paddedWidth, hf]
      | some g2 =>
        simp only [atlas.paste, hf]
        rw [ih (a + 1) _ k g (by omega) (by omega) hg, hstep]
        simp only [paddedWidth, hf]
        congr 1
        omega

theorem paste_range_uploads (fl : ℚ → ℚ) (font : Font) (w : ℚ) (n : Nat) :
    ∀ (a : Nat) (s : PasteState),
      (atlas.paste fl font w (List.range' a n) s).uploads
        = s.uploads ++ (List.range' a n).filterMap fun i =>
            (font i).map fun g =>
              (⟨s.o + offsetFrom font a i, 0, g.width, g.rows, g.buffer⟩ : TexSubImage) := by
  induction n with
  | zero => intro a s; simp [atlas.paste]
  | succ n ih =>
    intro a s
    rw [List.range'_succ]
    have htail : ∀ (o2 : Nat), o2 = s.o + paddedWidth font a →
        (List.range' (a + 1) n).filterMap (fun i => (font i).map fun g =>
            (⟨o2 + offsetFrom font (a + 1) i, 0, g.width, g.rows, g.buffer⟩ : TexSubImage))
        = (List.range' (a + 1) n).filterMap (fun i => (font i).map fun g =>
            (⟨s.o + offsetFrom font a i, 0, g.width, g.rows, g.buffer⟩ : TexSubImage)) := by
      intro o2 ho2
      apply List.filterMap_congr
      intro i hi
      have hlt : a < i := by
        have := (List.mem_range'_1.mp hi).1
        omega
      have e : o2 + offsetFrom font (a + 1) i = s.o + offsetFrom font a i := by
        rw [offsetFrom_step font a i hlt, ho2]; omega
      rw [e]
    cases hf : font a with
    | none =>
      simp only [atlas.paste, hf, List.filterMap_cons, Option.map_none']
      rw [ih (a + 1) s, htail s.o (by simp [paddedWidth, hf])]
    | some g2 =>
      simp only [atlas.paste, hf, List.filterMap_cons, Option.map_some']
      rw [ih (a + 1) _]
      simp only [List.append_assoc, List.singleton_append]
      rw [htail (s.o + (g2.width + 1)) (by simp [paddedWidth, hf])]
      simp [offsetFrom_self]

theorem atlas_c_loaded (fl : ℚ → ℚ) (font : Font) (k : Fin 128) (g : GlyphSlot)
    (h32 : 32 ≤ k.val) (hg : font k.val = some g) :
    (atlas.atlas fl font).c k
      = glyphRecord fl g (glyphOffset font k.val) (atlas.atlas fl font).w := by
  have hk := k.isLt
  have h := paste_range_c fl font (atlas.atlas fl font).w 96 32
    ⟨0, fun _ => CharInfo.zero, []⟩ k g h32 (by omega) hg
  rw [glyphOffset_eq_offsetFrom]
  simpa [atlas.atlas, atlas.over, codepoints] using h

theorem atlas_c_zero (fl : ℚ → ℚ) (font : Font) (k : Fin 128)
    (h : k.val < 32 ∨ font k.val = none) :
    (atlas.atlas fl font).c k = CharInfo.zero := by
  rcases h with h | h
  · have hnot : k.val ∉ codepoints := by
      simp [codepoints, List.mem_range'_1]; omega
    simpa [atlas.atlas, atlas.over] using
      paste_c_of_not_mem fl font _ codepoints ⟨0, fun _ => CharInfo.zero, []⟩ k hnot
  · simpa [atlas.atlas, atlas.over] using
      paste_c_of_none fl font _ codepoints ⟨0, fun _ => CharInfo.zero, []⟩ k h

theorem atlas_uploads_eq (fl : ℚ → ℚ) (font : Font) :
    (atlas.atlas fl font).uploads = codepoints.filterMap (expectedUpload font) := by
  have h := paste_range_uploads fl font (atlas.atlas fl font).w 96 32
    ⟨0, fun _ => CharInfo.zero, []⟩
  have e : (atlas.atlas fl font).uploads
      = (atlas.paste fl font (atlas.atlas fl font).w (List.range' 32 96)
          ⟨0, fun _ => CharInfo.zero, []⟩).uploads := rfl
  rw [e, h]
  simp only [List.nil_append, codepoints, Nat.zero_add]
  apply List.filterMap_congr
  intro i _
  simp [expectedUpload, glyphOffset_eq_offsetFrom]

theorem atlas_minw_eq (fl : ℚ → ℚ) (font : Font) :
    (atlas.atlas fl font).texImage.1 = ∑ i in Finset.Ico 32 128, paddedWidth font i := by
  rw [sum_Ico_eq_list]
  simp [atlas.atlas, atlas.over, codepoints, measure_fst]

theorem atlas_w_eq (fl : ℚ → ℚ) (font : Font) :
    (atlas.atlas fl font).w = fl (((atlas.atlas fl font).texImage.1 : Nat) : ℚ) := rfl

theorem atlas_h_eq (fl : ℚ → ℚ) (font : Font) :
    (atlas.atlas fl font).h = fl (((atlas.atlas fl font).texImage.2 : Nat) : ℚ) := rfl

theorem sampleFont_minw (fl : ℚ → ℚ) : (atlas.atlas fl sampleFont).texImage.1 = 7 := by
  rw [atlas_minw_eq]
  decide

theorem sampleFont_w : (atlas.atlas noRounding sampleFont).w = 7 := by
  rw [atlas_w_eq, sampleFont_minw]
  norm_num [noRounding]

/-- C2: in exact arithmetic, a codepoint `k` of 32..127 that loads is uploaded at the
horizontal offset `o_k`, the padded widths of the loaded codepoints before it, and
its record has `tx = o_k / w`; the uploads are exactly these, in codepoint order; the
first loaded codepoint has `tx = 0`. -/
theorem atlas_glyph_offsets (font : Font) (k : Fin 128) (g : GlyphSlot)
    (h32 : 32 ≤ k.val) (hg : font k.val = some g) :
    (atlas.atlas noRounding font).uploads = codepoints.filterMap (expectedUpload font) ∧
      expectedUpload font k.val
        = some ⟨glyphOffset font k.val, 0, g.width, g.rows, g.buffer⟩ ∧
      (⟨glyphOffset font k.val, 0, g.width, g.rows, g.buffer⟩ : TexSubImage)
        ∈ (atlas.atlas noRounding font).uploads ∧
      (atlas.atlas noRounding font).c k
        = glyphRecord noRounding g (glyphOffset font k.val) (atlas.atlas noRounding font).w ∧
      ((atlas.atlas noRounding font).c k).tx
        = (glyphOffset font k.val : ℚ) / (atlas.atlas noRounding font).w ∧
      ((∀ j, 32 ≤ j → j < k.val → font j = none) →
        glyphOffset font k.val = 0 ∧ ((atlas.atlas noRounding font).c k).tx = 0) := by
  have hup := atlas_uploads_eq noRounding font
  have hexp : expectedUpload font k.val
      = some ⟨glyphOffset font k.val, 0, g.width, g.rows, g.buffer⟩ := by
    simp [expectedUpload, hg]
  have hrec := atlas_c_loaded noRounding font k g h32 hg
  have htx : ((atlas.atlas noRounding font).c k).tx
      = (glyphOffset font k.val : ℚ) / (atlas.atlas noRounding font).w := by
    rw [hrec]; rfl
  refine ⟨hup, hexp, ?_, hrec, htx, ?_⟩
  · rw [hup, List.mem_filterMap]
    refine ⟨k.val, ?_, hexp⟩
    have := k.isLt
    simp [codepoints, List.mem_range'_1]
    omega
  · intro hfirst
    have h0 : glyphOffset font k.val = 0 := by
      unfold glyphOffset
      apply Finset.sum_eq_zero
      intro j hj
      have hj2 := Finset.mem_Ico.mp hj
      simp [paddedWidth, hfirst j hj2.1 hj2.2]
    refine ⟨h0, ?_⟩
    rw [htx, h0]
    simp

/-- The face `sampleFont` at codepoint 66: `B` is pasted at offset 4 of a strip 7 wide. -/
theorem atlas_glyph_offsets_witness :
    ((atlas.atlas noRounding sampleFont).c ⟨66, by decide⟩).tx = 4 / 7 ∧
      (⟨4, 0, 2, 7, [4, 5]⟩ : TexSubImage) ∈ (atlas.atlas noRounding sampleFont).uploads := by
  have h := atlas_glyph_offsets sampleFont ⟨66, by decide⟩ ⟨2, 7, [4, 5], 192, 0, 0, 7⟩
    (by decide) (by rfl)
  have ho : glyphOffset sampleFont 66 = 4 := by decide
  have hw := sampleFont_w
  obtain ⟨-, -, hmem, -, htx, -⟩ := h
  simp only [ho] at hmem htx
  refine ⟨?_, hmem⟩
  rw [htx, hw]
  norm_num

theorem atlas_minh_attained (fl : ℚ → ℚ) (font : Font) :
    (atlas.atlas fl font).texImage.2 = 0 ∨
      ∃ i g, 32 ≤ i ∧ i < 128 ∧ font i = some g ∧
        g.rows = (atlas.atlas fl font).texImage.2 := by
  rcases measure_snd_attained font codepoints (0, 0) with h | ⟨i, hi, g, hg, h⟩
  · left; exact h
  · right
    have hi2 : 32 ≤ i ∧ i < 128 := by
      have := List.mem_range'_1.mp hi
      omega
    exact ⟨i, g, hi2.1, hi2.2, hg, h⟩

theorem measure_filter_failed (font : Font) (i : Nat) (hfail : font i = none)
    (l : List Nat) (acc : Nat × Nat) :
    atlas.measure font (l.filter (fun j => decide (j ≠ i))) acc = atlas.measure font l acc := by
  induction l generalizing acc with
  | nil => rfl
  | cons j rest ih =>
    obtain ⟨minw, minh⟩ := acc
    by_cases hji : j = i
    · subst hji
      rw [List.filter_cons_of_neg (by simp), ih]
      simp [atlas.measure, hfail]
    · rw [List.filter_cons_of_pos (by simpa using hji)]
      cases hf : font j with
      | none => simp only [atlas.measure, hf]; exact ih _
      | some g => simp only [atlas.measure, hf]; exact ih _

theorem paste_filter_failed (fl : ℚ → ℚ) (font : Font) (w : ℚ) (i : Nat)
    (hfail : font i = none) (l : List Nat) (s : PasteState) :
    atlas.paste fl font w (l.filter (fun j => decide (j ≠ i))) s
      = atlas.paste fl font w l s := by
  induction l generalizing s with
  | nil => rfl
  | cons j rest ih =>
    by_cases hji : j = i
    · subst hji
      rw [List.filter_cons_of_neg (by simp), ih]
      simp [atlas.paste, hfail]
    · rw [List.filter_cons_of_pos (by simpa using hji)]
      cases hf : font j with
      | none => simp only [atlas.paste, hf]; exact ih _
      | some g => simp only [atlas.paste, hf]; exact ih _

/-- C4: in any `float` arithmetic, a codepoint `k` of 32..127 whose load fails keeps
the all-zero record, passes through both loops without any effect (no upload, offset
not advanced), and the atlas built is the one the constructor builds over the range
without `k`. -/
theorem atlas_failed_glyph (fl : ℚ → ℚ) (font : Font) (k : Fin 128) (_h32 : 32 ≤ k.val)
    (hfail : font k.val = none) :
    (atlas.atlas fl font).c k = ⟨0, 0, 0, 0, 0, 0, 0⟩ ∧
      (∀ acc, atlas.measure font [k.val] acc = acc) ∧
      (∀ w s, atlas.paste fl font w [k.val] s = s) ∧
      expectedUpload font k.val = none ∧
      (atlas.atlas fl font).uploads
        = (codepoints.filter (fun j => decide (j ≠ k.val))).filterMap (expectedUpload font) ∧
      atlas.over fl font (codepoints.filter (fun j => decide (j ≠ k.val)))
        = atlas.atlas fl font := by
  have hexp : expectedUpload font k.val = none := by simp [expectedUpload, hfail]
  refine ⟨atlas_c_zero fl font k (Or.inr hfail), ?_, ?_, hexp, ?_, ?_⟩
  · rintro ⟨minw, minh⟩
    simp [atlas.measure, hfail]
  · intro w s
    simp [atlas.paste, hfail]
  · rw [atlas_uploads_eq]
    induction codepoints with
    | nil => rfl
    | cons j rest ih =>
      by_cases hji : j = k.val
      · rw [List.filter_cons_of_neg (by simp [hji]), ← ih]
        simp [List.filterMap_cons, hji, hexp]
      · rw [List.filter_cons_of_pos (by simpa using hji)]
        simp only [List.filterMap_cons, ih]
  · simp only [atlas.atlas, atlas.over, measure_filter_failed font k.val hfail,
      paste_filter_failed fl font _ k.val hfail]

/-- The face `sampleFont` at codepoint 67, which does not load, in binary32. -/
theorem atlas_failed_glyph_witness :
    (atlas.atlas round32 sampleFont).c ⟨67, by decide⟩ = ⟨0, 0, 0, 0, 0, 0, 0⟩ ∧
      atlas.over round32 sampleFont (codepoints.filter (fun j => decide (j ≠ 67)))
        = atlas.atlas round32 sampleFont :=
  have h := atlas_failed_glyph round32 sampleFont ⟨67, by decide⟩ (by decide) (by rfl)
  ⟨h.1, h.2.2.2.2.2⟩

/-! ## Theorems: `render_text` -/

theorem loop_chars (fl : ℚ → ℚ) (a : atlas) (sx sy : ℚ) (text : List (Fin 128))
    (st : RenderState) :
    render_text.loop fl a sx sy text st = render_text.loop fl a sx sy (chars text) st := by
  induction text generalizing st with
  | nil => rfl
  | cons p rest ih =>
    by_cases hp : p.val = 0
    · simp [chars, render_text.loop, hp]
    · have e : chars (p :: rest) = p :: chars rest := by
        simp [chars, List.takeWhile_cons, hp]
      rw [e]
      simp only [render_text.loop, hp, if_false]
      split <;> exact ih _

theorem strlen_eq (text : List (Fin 128)) : strlen text = (chars text).length := by
  induction text with
  | nil => rfl
  | cons p rest ih =>
    by_cases hp : p.val = 0
    · simp [chars, strlen, hp]
    · have e : chars (p :: rest) = p :: chars rest := by
        simp [chars, List.takeWhile_cons, hp]
      simp [e, strlen, hp, ih]

theorem chars_ne_zero (text : List (Fin 128)) : ∀ p ∈ chars text, p.val ≠ 0 := by
  intro p hp
  have := List.mem_takeWhile_imp hp
  simpa using this

theorem loop_count (fl : ℚ → ℚ) (a : atlas) (sx sy : ℚ) (l : List (Fin 128))
    (hl : ∀ p ∈ l, p.val ≠ 0) (st : RenderState) :
    (render_text.loop fl a sx sy l st).c = st.c + 6 * l.countP (drawn fl a sx sy) ∧
      (render_text.loop fl a sx sy l st).coords.length
        = st.coords.length + 6 * l.countP (drawn fl a sx sy) := by
  induction l generalizing st with
  | nil => simp [render_text.loop]
  | cons p rest ih =>
    have hp : p.val ≠ 0 := hl p (List.mem_cons_self _ _)
    have hrest : ∀ q ∈ rest, q.val ≠ 0 := fun q hq => hl q (List.mem_cons_of_mem _ hq)
    simp only [render_text.loop, hp, if_false]
    by_cases hskip : fl ((a.c p).bw * sx) = 0 ∨ fl ((a.c p).bh * sy) = 0
    · have hd : drawn fl a sx sy p = false := by
        simp only [drawn, decide_eq_false_iff_not]
        tauto
      rw [if_pos hskip, List.countP_cons_of_neg _ _ (by simp [hd])]
      exact ih hrest _
    · have hd : drawn fl a sx sy p = true := by
        simp only [drawn, decide_eq_true_eq]
        tauto
      rw [if_neg hskip, List.countP_cons_of_pos _ _ hd]
      constructor
      · rw [(ih hrest _).1]
        simp only
        omega
      · rw [(ih hrest _).2]
        simp only [List.length_append, List.length_cons, List.length_nil]
        omega

/-- C7: in any `float` arithmetic, the vertex count given to `glDrawArrays`, which is
also the number of entries written to `coords`, is 6 times the number of characters of
the text whose scaled width and scaled height are both non-zero, and is at most the
capacity `6 * strlen(text)` of the array. -/
theorem render_text_vertex_count (fl : ℚ → ℚ) (text : List (Fin 128)) (a : atlas)
    (x y sx sy : ℚ) :
    (render_text fl text a x y sx sy).count
        = 6 * (chars text).countP
            (fun p => decide (fl ((a.c p).bw * sx) ≠ 0 ∧ fl ((a.c p).bh * sy) ≠ 0)) ∧
      (render_text fl text a x y sx sy).coords.length
        = (render_text fl text a x y sx sy).count ∧
      (render_text fl text a x y sx sy).capacity = 6 * strlen text ∧
      strlen text = (chars text).length ∧
      (render_text fl text a x y sx sy).count ≤ (render_text fl text a x y sx sy).capacity ∧
      (render_text noRounding text a x y sx sy).count
        = 6 * (chars text).countP
            (fun p => decide ((a.c p).bw * sx ≠ 0 ∧ (a.c p).bh * sy ≠ 0)) := by
  have h : ∀ fl2 : ℚ → ℚ, (render_text fl2 text a x y sx sy).count
        = 6 * (chars text).countP (drawn fl2 a sx sy) ∧
      (render_text fl2 text a x y sx sy).coords.length
        = 6 * (chars text).countP (drawn fl2 a sx sy) := by
    intro fl2
    have h := loop_count fl2 a sx sy (chars text) (chars_ne_zero text) ⟨x, y, [], 0⟩
    constructor
    · simp only [render_text, loop_chars fl2 a sx sy text]
      rw [h.1]; simp
    · simp only [render_text, loop_chars fl2 a sx sy text]
      rw [h.2]; simp
  have hc := (h fl).1
  have hl := (h fl).2
  refine ⟨hc, by rw [hl, hc], rfl, strlen_eq text, ?_, (h noRounding).1⟩
  rw [hc]
  show _ ≤ 6 * strlen text
  rw [strlen_eq]
  exact Nat.mul_le_mul_left 6 (List.countP_le_length _)

theorem penAt_zero (a : atlas) (sx sy x y : ℚ) (l : List (Fin 128)) :
    penAt a sx sy x y l 0 = (x, y) := by
  simp [penAt]

theorem penAt_cons_succ (a : atlas) (sx sy x y : ℚ) (p : Fin 128) (rest : List (Fin 128))
    (k : Nat) :
    penAt a sx sy x y (p :: rest) (k + 1)
      = penAt a sx sy (x + (a.c p).ax * sx) (y + (a.c p).ay * sy) rest k := by
  simp only [penAt, List.take_succ_cons, List.map_cons, List.sum_cons]
  congr 1 <;> ring

theorem loop_append (fl : ℚ → ℚ) (a : atlas) (sx sy : ℚ) (l1 l2 : List (Fin 128))
    (hl : ∀ p ∈ l1, p.val ≠ 0) (st : RenderState) :
    render_text.loop fl a sx sy (l1 ++ l2) st
      = render_text.loop fl a sx sy l2 (render_text.loop fl a sx sy l1 st) := by
  induction l1 generalizing st with
  | nil => rfl
  | cons p rest ih =>
    have hp : p.val ≠ 0 := hl p (List.mem_cons_self _ _)
    have hrest : ∀ q ∈ rest, q.val ≠ 0 := fun q hq => hl q (List.mem_cons_of_mem _ hq)
    simp only [List.cons_append, render_text.loop, hp, if_false]
    split <;> exact ih hrest _

theorem loop_pen (a : atlas) (sx sy : ℚ) (l : List (Fin 128))
    (hl : ∀ p ∈ l, p.val ≠ 0) (st : RenderState) :
    ((render_text.loop noRounding a sx sy l st).x,
        (render_text.loop noRounding a sx sy l st).y)
      = penAt a sx sy st.x st.y l l.length := by
  induction l generalizing st with
  | nil => simp [render_text.loop, penAt]
  | cons p rest ih =>
    have hp : p.val ≠ 0 := hl p (List.mem_cons_self _ _)
    have hrest : ∀ q ∈ rest, q.val ≠ 0 := fun q hq => hl q (List.mem_cons_of_mem _ hq)
    rw [List.length_cons, penAt_cons_succ]
    simp only [render_text.loop, noRounding, hp, if_false]
    split <;> exact ih hrest _

theorem penAt_take (a : atlas) (sx sy x y : ℚ) (l : List (Fin 128)) (k : Nat)
    (hk : k ≤ l.length) :
    penAt a sx sy x y (l.take k) (l.take k).length = penAt a sx sy x y l k := by
  simp [penAt, List.length_take, Nat.min_eq_left hk, List.take_take]

theorem take_chars (text : List (Fin 128)) (k : Nat) (hk : k ≤ (chars text).length) :
    text.take k = (chars text).take k := by
  induction text generalizing k with
  | nil => simp [chars]
  | cons p rest ih =>
    by_cases hp : p.val = 0
    · have e : chars (p :: rest) = [] := by simp [chars, hp]
      rw [e] at hk ⊢
      have : k = 0 := by simpa using hk
      simp [this]
    · have e : chars (p :: rest) = p :: chars rest := by
        simp [chars, List.takeWhile_cons, hp]
      rw [e] at hk ⊢
      cases k with
      | zero => rfl
      | succ k =>
        simp only [List.take_succ_cons]
        rw [ih k (by simpa using hk)]

theorem loop_positions (a : atlas) (sx sy : ℚ) (l : List (Fin 128))
    (hl : ∀ p ∈ l, p.val ≠ 0) (st : RenderState) :
    (render_text.loop noRounding a sx sy l st).coords.map point.pos
      = st.coords.map point.pos ++
        (l.mapIdx fun k p =>
          if drawn noRounding a sx sy p = true then
            (glyphRect a sx sy p (penAt a sx sy st.x st.y l k)).triangles
          else []).flatten := by
  induction l generalizing st with
  | nil => simp [render_text.loop]
  | cons p rest ih =>
    have hp : p.val ≠ 0 := hl p (List.mem_cons_self _ _)
    have hrest : ∀ q ∈ rest, q.val ≠ 0 := fun q hq => hl q (List.mem_cons_of_mem _ hq)
    rw [List.mapIdx_cons, List.flatten_cons, penAt_zero]
    simp only [penAt_cons_succ]
    simp only [render_text.loop, noRounding, hp, if_false]
    by_cases hskip : (a.c p).bw * sx = 0 ∨ (a.c p).bh * sy = 0
    · have hd : drawn noRounding a sx sy p = false := by
        simp only [drawn, noRounding, decide_eq_false_iff_not]
        tauto
      rw [if_pos hskip, ih hrest]
      simp [hd]
    · have hd : drawn noRounding a sx sy p = true := by
        simp only [drawn, noRounding, decide_eq_true_eq]
        tauto
      rw [if_neg hskip, ih hrest]
      simp only [hd, if_true, List.map_append, List.append_assoc]
      congr 1
      simp only [List.map_cons, List.map_nil, point.pos, Rect.triangles, Rect.topLeft,
        Rect.topRight, Rect.bottomLeft, Rect.bottomRight, glyphRect, List.cons_append,
        List.nil_append, neg_sub, sub_neg_eq_add, neg_neg]
      have e : (a.c p).bt * sy + st.y = st.y + (a.c p).bt * sy := add_comm _ _
      simp only [e]

theorem region_eq_triangles (r : Rect) :
    r.region = triangle r.topLeft r.topRight r.bottomLeft ∪
      triangle r.topRight r.bottomLeft r.bottomRight := by
  ext P
  simp only [Rect.region, triangle, Rect.topLeft, Rect.topRight, Rect.bottomLeft,
    Rect.bottomRight, Set.mem_setOf_eq, Set.mem_union]
  constructor
  · rintro ⟨s, t, hs0, hs1, ht0, ht1, rfl⟩
    by_cases hst : s + t ≤ 1
    · left
      refine ⟨1 - s - t, s, t, by linarith, hs0, ht0, by ring, ?_⟩
      ext <;> simp <;> ring
    · right
      refine ⟨1 - t, 1 - s, s + t - 1, by linarith, by linarith, by linarith, by ring, ?_⟩
      ext <;> simp <;> ring
  · rintro (⟨u, v, w, hu, hv, hw, hsum, rfl⟩ | ⟨u, v, w, hu, hv, hw, hsum, rfl⟩)
    · refine ⟨v, w, hv, by linarith, hw, by linarith, ?_⟩
      have hu2 : u = 1 - v - w := by linarith
      subst hu2
      ext <;> simp <;> ring
    · refine ⟨u + w, v + w, by linarith, by linarith, by linarith, by linarith, ?_⟩
      have hu2 : u = 1 - v - w := by linarith
      subst hu2
      ext <;> simp <;> ring

theorem region_eq_box (r : Rect) (hw : 0 ≤ r.width) (hh : 0 ≤ r.height) :
    r.region = r.box := by
  ext P
  obtain ⟨X, Y⟩ := P
  simp only [Rect.region, Rect.box, Set.mem_setOf_eq, Prod.mk.injEq]
  constructor
  · rintro ⟨s, t, hs0, hs1, ht0, ht1, rfl, rfl⟩
    have h1 : 0 ≤ s * r.width := mul_nonneg hs0 hw
    have h2 : s * r.width ≤ r.width := by nlinarith
    have h3 : 0 ≤ t * r.height := mul_nonneg ht0 hh
    have h4 : t * r.height ≤ r.height := by nlinarith
    refine ⟨by linarith, by linarith, by linarith, by linarith⟩
  · rintro ⟨h1, h2, h3, h4⟩
    have hs : ∃ s : ℚ, 0 ≤ s ∧ s ≤ 1 ∧ X = r.left + s * r.width := by
      rcases eq_or_lt_of_le hw with h0 | hpos
      · exact ⟨0, le_refl _, zero_le_one, by rw [← h0] at h2; linarith⟩
      · refine ⟨(X - r.left) / r.width, div_nonneg (by linarith) hw, ?_, ?_⟩
        · rw [div_le_one hpos]; linarith
        · field_simp
    have ht : ∃ t : ℚ, 0 ≤ t ∧ t ≤ 1 ∧ Y = r.top - t * r.height := by
      rcases eq_or_lt_of_le hh with h0 | hpos
      · exact ⟨0, le_refl _, zero_le_one, by rw [← h0] at h3; linarith⟩
      · refine ⟨(r.top - Y) / r.height, div_nonneg (by linarith) hh, ?_, ?_⟩
        · rw [div_le_one hpos]; linarith
        · field_simp
    obtain ⟨s, hs0, hs1, hsX⟩ := hs
    obtain ⟨t, ht0, ht1, htY⟩ := ht
    exact ⟨s, t, hs0, hs1, ht0, ht1, hsX, htY⟩

/-- C8: in exact arithmetic, when the loop reaches the character of index `k` the pen
is at `(x + sx * sum of ax, y + sy * sum of ay)` over the `k` characters before it,
drawn or not; the positions written are, character by character, the six vertices of
the two triangles of the rectangle with top-left corner
`(pen.x + bl * sx, pen.y + bt * sy)`, width `bw * sx` and height `bh * sy` downward,
for the drawn characters only; and these two triangles cover exactly that rectangle. -/
theorem render_text_pen_and_quads (text : List (Fin 128)) (a : atlas) (x y sx sy : ℚ) :
    (∀ k, k ≤ (chars text).length →
      render_text.loop noRounding a sx sy text ⟨x, y, [], 0⟩
          = render_text.loop noRounding a sx sy (text.drop k)
              (render_text.loop noRounding a sx sy (text.take k) ⟨x, y, [], 0⟩) ∧
        ((render_text.loop noRounding a sx sy (text.take k) ⟨x, y, [], 0⟩).x,
          (render_text.loop noRounding a sx sy (text.take k) ⟨x, y, [], 0⟩).y)
          = penAt a sx sy x y (chars text) k) ∧
      (render_text noRounding text a x y sx sy).coords.map point.pos
        = ((chars text).mapIdx fun k p =>
            if (a.c p).bw * sx ≠ 0 ∧ (a.c p).bh * sy ≠ 0 then
              (glyphRect a sx sy p (penAt a sx sy x y (chars text) k)).triangles
            else []).flatten ∧
      (∀ r : Rect, r.region = triangle r.topLeft r.topRight r.bottomLeft ∪
          triangle r.topRight r.bottomLeft r.bottomRight) ∧
      (∀ r : Rect, 0 ≤ r.width → 0 ≤ r.height → r.region = r.box) := by
  refine ⟨?_, ?_, region_eq_triangles, region_eq_box⟩
  · intro k hk
    have htake := take_chars text k hk
    have hne : ∀ p ∈ text.take k, p.val ≠ 0 := by
      intro p hp
      rw [htake] at hp
      exact chars_ne_zero text p (List.mem_of_mem_take hp)
    constructor
    · conv_lhs => rw [← List.take_append_drop k text]
      exact loop_append noRounding a sx sy _ _ hne _
    · rw [loop_pen a sx sy _ hne, htake]
      exact penAt_take a sx sy x y (chars text) k hk
  · have h := loop_positions a sx sy (chars text) (chars_ne_zero text) ⟨x, y, [], 0⟩
    simp only [render_text, loop_chars noRounding a sx sy text]
    rw [h]
    simp [drawn, noRounding]

/-- The text `sampleText`: after `A` and the blank the pen stands where the formula says. -/
theorem render_text_pen_and_quads_witness :
    ((render_text.loop noRounding (atlas.atlas noRounding sampleFont) 1 1
        (sampleText.take 2) ⟨0, 0, [], 0⟩).x,
      (render_text.loop noRounding (atlas.atlas noRounding sampleFont) 1 1
        (sampleText.take 2) ⟨0, 0, [], 0⟩).y)
      = penAt (atlas.atlas noRounding sampleFont) 1 1 0 0 (chars sampleText) 2 :=
  ((render_text_pen_and_quads sampleText (atlas.atlas noRounding sampleFont) 0 0 1 1).1 2
    (by decide)).2

theorem glyphOffset_mono (font : Font) (i j : Nat) (hij : i ≤ j) :
    glyphOffset font i ≤ glyphOffset font j := by
  unfold glyphOffset
  exact Finset.sum_le_sum_of_subset (Finset.Ico_subset_Ico_right hij)

theorem atlas_minw_eq_offset (fl : ℚ → ℚ) (font : Font) :
    (atlas.atlas fl font).texImage.1 = glyphOffset font 128 :=
  atlas_minw_eq fl font

/-- A face as FreeType delivers it, no bitmap side above 32767: the texture is at most
96 * 32768 = 3145728 pixels wide and at most 32767 high, every offset is at most the
width, and the `float` members `w` and `h` hold the integer sizes exactly. -/
theorem atlas_sizes_fit (font : Font)
    (hw : ∀ i g, font i = some g → g.width ≤ 32767)
    (hr : ∀ i g, font i = some g → g.rows ≤ 32767) :
    (atlas.atlas round32 font).texImage.1 ≤ 3145728 ∧
      (atlas.atlas round32 font).texImage.1 ≤ 8388608 ∧
      (atlas.atlas round32 font).texImage.2 ≤ 32767 ∧
      (∀ i, i ≤ 128 → glyphOffset font i ≤ (atlas.atlas round32 font).texImage.1) ∧
      (atlas.atlas round32 font).w = ((atlas.atlas round32 font).texImage.1 : ℚ) ∧
      (atlas.atlas round32 font).h = ((atlas.atlas round32 font).texImage.2 : ℚ) := by
  have hsum : (atlas.atlas round32 font).texImage.1 ≤ 3145728 := by
    rw [atlas_minw_eq]
    have hle : ∀ i ∈ Finset.Ico 32 128, paddedWidth font i ≤ 32768 := by
      intro i _
      cases hf : font i with
      | none => simp [paddedWidth, hf]
      | some g =>
        have := hw i g hf
        simp only [paddedWidth, hf]
        omega
    have := Finset.sum_le_card_nsmul (Finset.Ico 32 128) (paddedWidth font) 32768 hle
    simpa using this
  have hrows : (atlas.atlas round32 font).texImage.2 ≤ 32767 := by
    rcases atlas_minh_attained round32 font with h | ⟨i, g, _, _, hg, h⟩
    · rw [h]; exact Nat.zero_le _
    · rw [← h]; exact hr i g hg
  refine ⟨hsum, by omega, hrows, ?_, ?_, ?_⟩
  · intro i hi
    rw [atlas_minw_eq_offset]
    exact glyphOffset_mono font i 128 hi
  · rw [atlas_w_eq]
    exact round32_nat _ (by omega)
  · rw [atlas_h_eq]
    exact round32_nat _ (by omega)

/-- The face `sampleFont` has small bitmaps, so its strip is narrower than `2 ^ 23`. -/
theorem atlas_sizes_fit_witness : (atlas.atlas round32 sampleFont).texImage.1 ≤ 8388608 :=
  (atlas_sizes_fit sampleFont
    (by
      intro i g h
      simp only [sampleFont] at h
      split_ifs at h
      · rw [← Option.some.inj h]; decide
      · rw [← Option.some.inj h]; decide)
    (by
      intro i g h
      simp only [sampleFont] at h
      split_ifs at h
      · rw [← Option.some.inj h]; decide
      · rw [← Option.some.inj h]; decide)).2.1

/-! ## Theorems: `file_read` -/

theorem readChunk_inv (B : Nat) (file : List Nat) (t : ReadState)
    (hinv : ReadInv B file t) (hne : t.eof = false) (hfit : t.nb_read_total + B ≤ t.res_size) :
    ReadInv B file (file_read.readChunk B file t) ∧
      ((file_read.readChunk B file t).eof = true ∨
        (file_read.readChunk B file t).nb_read_total = t.nb_read_total + B) := by
  obtain ⟨hres, hpos, hle, hdvd, _, hsz, _, hBle, hmax⟩ := hinv
  have hlen : ((file.drop t.nb_read_total).take B).length
      = min B (file.length - t.nb_read_total) := by
    simp [List.length_take, List.length_drop]
  have hbuf : (file.take t.nb_read_total).take t.nb_read_total
        ++ (file.drop t.nb_read_total).take B
      = file.take (t.nb_read_total + min B (file.length - t.nb_read_total)) := by
    rw [List.take_take, Nat.min_self]
    rcases Nat.le_total B (file.length - t.nb_read_total) with h | h
    · rw [Nat.min_eq_left h, List.take_add]
    · rw [Nat.min_eq_right h, ← List.take_add]
      rw [List.take_of_length_le (by omega), List.take_of_length_le (by omega)]
  simp only [file_read.readChunk, fread, ReadInv, hpos, hres, hlen, hbuf, decide_eq_true_eq,
    decide_eq_false_iff_not]
  refine ⟨⟨trivial, trivial, ?_, ?_, ?_, hsz, ?_, hBle, hmax⟩, ?_⟩
  · omega
  · intro hfull
    have hmin : min B (file.length - t.nb_read_total) = B := by omega
    rw [hmin]
    exact Dvd.dvd.add (hdvd hne) (dvd_refl B)
  · intro hshort
    omega
  · omega
  · omega

theorem loop_exit (B : Nat) (hB : 0 < B) (file : List Nat) (fuel : Nat) :
    ∀ s : ReadState, ReadInv B file s →
      (s.eof = true ∧ 1 ≤ fuel ∨ (file.length - s.nb_read_total) + 2 ≤ fuel) →
      ∃ s2, file_read.loop B file fuel s = some s2 ∧ ReadInv B file s2 ∧
        (s2.eof = true ∨ (10 * 1024 * 1024 < s2.res_size ∧ s2.res_size ≤ s2.nb_read_total)) := by
  induction fuel with
  | zero => intro s _ h; omega
  | succ fuel ih =>
    intro s hinv hfuel
    by_cases heof : s.eof = true
    · exact ⟨s, by simp [file_read.loop, heof], hinv, Or.inl heof⟩
    · have hne : s.eof = false := by simpa using heof
      have hfuel2 : (file.length - s.nb_read_total) + 2 ≤ fuel + 1 := by
        rcases hfuel with h | h
        · exact absurd h.1 heof
        · exact h
      have hstep : ∀ t : ReadState, ReadInv B file t → t.eof = false →
          t.nb_read_total = s.nb_read_total → t.nb_read_total + B ≤ t.res_size →
          ∃ s2, file_read.loop B file fuel (file_read.readChunk B file t) = some s2 ∧
            ReadInv B file s2 ∧
            (s2.eof = true ∨
              (10 * 1024 * 1024 < s2.res_size ∧ s2.res_size ≤ s2.nb_read_total)) := by
        intro t htinv htne htnb htfit
        obtain ⟨hinv2, hprog⟩ := readChunk_inv B file t htinv htne htfit
        apply ih _ hinv2
        have hle2 := hinv2.2.2.1
        rcases hprog with h | h
        · left; exact ⟨h, by omega⟩
        · right; omega
      obtain ⟨hres, hpos, hle, hdvd, heofn, hsz, hnbsz, hBle, hmax⟩ := hinv
      by_cases hgrow : s.nb_read_total + B > s.res_size
      · by_cases hcap : s.res_size > 10 * 1024 * 1024
        · refine ⟨s, by simp [file_read.loop, hne, hgrow, hcap],
            ⟨hres, hpos, hle, hdvd, heofn, hsz, hnbsz, hBle, hmax⟩, Or.inr ⟨hcap, ?_⟩⟩
          obtain ⟨m, hm⟩ := hdvd hne
          obtain ⟨q, hq⟩ := hsz
          rw [hm, hq] at hgrow ⊢
          have : q < m + 1 := by
            by_contra hcon
            have : B * (m + 1) ≤ B * q := Nat.mul_le_mul_left B (by omega)
            rw [Nat.mul_add, Nat.mul_one] at this
            omega
          exact Nat.mul_le_mul_left B (by omega)
        · have hloop : file_read.loop B file (fuel + 1) s
              = file_read.loop B file fuel
                  (file_read.readChunk B file { s with res_size := s.res_size * 2 }) := by
            simp [file_read.loop, hne, hgrow, hcap]
          rw [hloop]
          have hinv2 : ReadInv B file { s with res_size := s.res_size * 2 } := by
            refine ⟨hres, hpos, hle, hdvd, heofn, Dvd.dvd.mul_right hsz 2, ?_, ?_, ?_⟩
            · show s.nb_read_total ≤ s.res_size * 2
              omega
            · show B ≤ s.res_size * 2
              omega
            · show s.res_size * 2 ≤ max B (2 * (10 * 1024 * 1024))
              have : s.res_size * 2 ≤ 2 * (10 * 1024 * 1024) := by omega
              exact le_trans this (le_max_right _ _)
          refine hstep { s with res_size := s.res_size * 2 } hinv2 hne rfl ?_
          show s.nb_read_total + B ≤ s.res_size * 2
          omega
      · have hloop : file_read.loop B file (fuel + 1) s
            = file_read.loop B file fuel (file_read.readChunk B file s) := by
          simp [file_read.loop, hne, hgrow]
        rw [hloop]
        exact hstep s ⟨hres, hpos, hle, hdvd, heofn, hsz, hnbsz, hBle, hmax⟩ hne rfl (by omega)

theorem init_inv (B : Nat) (file : List Nat) : ReadInv B file ⟨B, [], 0, 0, false⟩ := by
  refine ⟨by simp, rfl, Nat.zero_le _, fun _ => dvd_zero B, ?_, dvd_refl B, Nat.zero_le _,
    le_refl B, le_max_left _ _⟩
  intro h
  exact absurd h (by simp)

theorem file_read_prefix (B : Nat) (hB : 0 < B) (content : List Nat) :
    ∃ n, n ≤ content.length ∧ (n = content.length ∨ 10 * 1024 * 1024 < n) ∧
      n ≤ max B (2 * (10 * 1024 * 1024)) ∧
      file_read B (some content) = some (Buffer.bytes (content.take n ++ [0])) := by
  obtain ⟨s2, hloop, hinv, hexit⟩ :=
    loop_exit B hB content (content.length + 2) ⟨B, [], 0, 0, false⟩ (init_inv B content)
      (Or.inr (by simp))
  obtain ⟨hres, _, hle, _, heofn, _, hnbsz, _, hmax⟩ := hinv
  refine ⟨s2.nb_read_total, hle, ?_, le_trans hnbsz hmax, ?_⟩
  · rcases hexit with h | ⟨h1, h2⟩
    · left; exact heofn h
    · right; omega
  · simp only [file_read, hloop, hres, List.take_take, Nat.min_self]

theorem loop_res_size (B : Nat) (file : List Nat) (P : Nat → Prop)
    (hP : ∀ r, P r → r ≤ 10 * 1024 * 1024 → P (r * 2)) (fuel : Nat) :
    ∀ s s2 : ReadState, P s.res_size → file_read.loop B file fuel s = some s2 →
      P s2.res_size := by
  induction fuel with
  | zero => intro s s2 _ h; simp [file_read.loop] at h
  | succ fuel ih =>
    intro s s2 hs h
    by_cases heof : s.eof = true
    · simp only [file_read.loop, heof, if_true, Option.some.injEq] at h
      rw [← h]; exact hs
    · have hne : s.eof = false := by simpa using heof
      by_cases hgrow : s.nb_read_total + B > s.res_size
      · by_cases hcap : s.res_size > 10 * 1024 * 1024
        · simp only [file_read.loop, hne, hgrow, hcap, if_true, Bool.false_eq_true, if_false,
            Option.some.injEq] at h
          rw [← h]; exact hs
        · simp only [file_read.loop, hne, hgrow, hcap, if_true, Bool.false_eq_true,
            if_false] at h
          exact ih (file_read.readChunk B file { s with res_size := s.res_size * 2 }) s2
            (hP _ hs (by omega)) h
      · simp only [file_read.loop, hne, hgrow, Bool.false_eq_true, if_false] at h
        exact ih (file_read.readChunk B file s) s2 hs h

theorem double_dvd (r : Nat) (hr : r ∣ 16777216) (hle : r ≤ 10 * 1024 * 1024) :
    r * 2 ∣ 16777216 := by
  have h24 : (16777216 : Nat) = 2 ^ 24 := by norm_num
  rw [h24] at hr ⊢
  obtain ⟨k, hk, rfl⟩ := (Nat.dvd_prime_pow Nat.prime_two).mp hr
  have hk2 : k ≠ 24 := by
    intro h
    rw [h] at hle
    norm_num at hle
  have : 2 ^ k * 2 = 2 ^ (k + 1) := by ring
  rw [this]
  exact Nat.pow_dvd_pow 2 (by omega)

/-- With `BUFSIZ = 8192` the buffer ends at 16 MiB: `file_read` returns the first
16777216 bytes of the file followed by a NUL. -/
theorem file_read_glibc (content : List Nat) :
    file_read 8192 (some content) = some (Buffer.bytes (content.take 16777216 ++ [0])) := by
  obtain ⟨s2, hloop, hinv, hexit⟩ :=
    loop_exit 8192 (by norm_num) content (content.length + 2) ⟨8192, [], 0, 0, false⟩
      (init_inv 8192 content) (Or.inr (by simp))
  have hsz : s2.res_size ∣ 16777216 :=
    loop_res_size 8192 content (fun r => r ∣ 16777216) double_dvd _ _ s2
      (by norm_num) hloop
  obtain ⟨hres, _, hle, _, heofn, _, hnbsz, _, _⟩ := hinv
  have hszle : s2.res_size ≤ 16777216 := Nat.le_of_dvd (by norm_num) hsz
  have hn : content.take s2.nb_read_total = content.take 16777216 := by
    rcases hexit with h | ⟨h1, h2⟩
    · rw [heofn h, List.take_length, List.take_of_length_le]
      have := heofn h
      omega
    · have : s2.res_size = 16777216 := by
        obtain ⟨q, hq⟩ := hsz
        have hq1 : q = 1 := by
          rcases Nat.lt_or_ge q 2 with hlt | hge
          · rcases Nat.eq_zero_or_pos q with h0 | hpos
            · rw [h0] at hq; omega
            · omega
          · have : s2.res_size * 2 ≤ s2.res_size * q := Nat.mul_le_mul_left _ hge
            omega
        rw [hq1] at hq
        omega
      have : s2.nb_read_total = 16777216 := by omega
      rw [this]
  simp only [file_read, hloop]
  rw [hres, List.take_take, Nat.min_self, hn]

/-- C5, as amended: `file_read` returns `NULL` exactly when the file cannot be opened;
a file that can be opened and has at most 10 * 1024 * 1024 bytes comes back whole, its
bytes in order followed by one NUL; any file that can be opened comes back as a
prefix of its bytes followed by one NUL, and the prefix is cut short only past 10 MiB. -/
theorem file_read_contents (BUFSIZ : Nat) (hB : 0 < BUFSIZ) (file : Option (List Nat)) :
    (file_read BUFSIZ file = some Buffer.NULL ↔ file = none) ∧
      (∀ content, file = some content → content.length ≤ 10 * 1024 * 1024 →
        file_read BUFSIZ file = some (Buffer.bytes (content ++ [0]))) ∧
      (∀ content, file = some content →
        ∃ n, n ≤ content.length ∧ (n = content.length ∨ 10 * 1024 * 1024 < n) ∧
          file_read BUFSIZ file = some (Buffer.bytes (content.take n ++ [0]))) := by
  refine ⟨?_, ?_, ?_⟩
  · cases file with
    | none => simp [file_read]
    | some content =>
      obtain ⟨n, _, _, _, h⟩ := file_read_prefix BUFSIZ hB content
      simp [h]
  · intro content hfile hlen
    subst hfile
    obtain ⟨n, hn, hcut, _, h⟩ := file_read_prefix BUFSIZ hB content
    have hall : n = content.length := by
      rcases hcut with h1 | h1
      · exact h1
      · omega
    rw [h, hall, List.take_length]
  · intro content hfile
    subst hfile
    obtain ⟨n, hn, hcut, _, h⟩ := file_read_prefix BUFSIZ hB content
    exact ⟨n, hn, hcut, h⟩

/-- With `BUFSIZ = 4`, a file of nine bytes comes back whole with a NUL behind it. -/
theorem file_read_contents_witness :
    file_read 4 (some [1, 2, 3, 4, 5, 6, 7, 8, 9])
      = some (Buffer.bytes [1, 2, 3, 4, 5, 6, 7, 8, 9, 0]) :=
  (file_read_contents 4 (by decide) (some [1, 2, 3, 4, 5, 6, 7, 8, 9])).2.1
    [1, 2, 3, 4, 5, 6, 7, 8, 9] rfl (by norm_num)

/-- C5 fails as stated: with `BUFSIZ = 8192` (the value of the GNU C library) a file
of 16 MiB + 1 bytes that opens and reads without error comes back without its last
byte: the buffer stops growing at 16 MiB, the first size above 10 MiB. -/
theorem file_read_truncates :
    file_read 8192 (some (List.replicate 16777217 65))
        = some (Buffer.bytes (List.replicate 16777216 65 ++ [0])) ∧
      file_read 8192 (some (List.replicate 16777217 65))
        ≠ some (Buffer.bytes (List.replicate 16777217 65 ++ [0])) := by
  have h := file_read_glibc (List.replicate 16777217 65)
  have hmin : min 16777216 16777217 = 16777216 := Nat.min_eq_left (by norm_num)
  rw [List.take_replicate, hmin] at h
  refine ⟨h, ?_⟩
  rw [h]
  intro heq
  have hlists : List.replicate 16777216 65 ++ [0] = List.replicate 16777217 65 ++ [0] :=
    Buffer.bytes.inj (Option.some.inj heq)
  have hlen := congrArg List.length hlists
  rw [List.length_append, List.length_append, List.length_replicate,
    List.length_replicate] at hlen
  omega

end text02

/-! ## Theorems: start-up -/

theorem text02_init_eq_run (e : text02.Env) :
    text02.init_resources e = runUntilFailure (text02.steps e) := by
  by_cases h1 : e.FT_Init_FreeType = 0
  swap
  · simp [text02.init_resources, text02.steps, runUntilFailure, runFrom, h1]
  by_cases h2 : e.FT_New_Face = 0
  swap
  · simp [text02.init_resources, text02.steps, runUntilFailure, runFrom, h1, h2]
  by_cases h3 : text02.create_shader e.vs = 0
  · simp [text02.init_resources, text02.steps, runUntilFailure, runFrom, h1, h2, h3]
  by_cases h4 : text02.create_shader e.fs = 0
  · simp [text02.init_resources, text02.steps, runUntilFailure, runFrom, h1, h2, h3, h4]
  by_cases h5 : e.link_ok = 0
  · simp [text02.init_resources, text02.steps, runUntilFailure, runFrom, h1, h2, h3, h4, h5]
  by_cases h6 : e.attribute_coord = -1
  · simp [text02.init_resources, text02.steps, runUntilFailure, runFrom, h1, h2, h3, h4, h5, h6]
  by_cases h7 : e.uniform_tex = -1
  · simp [text02.init_resources, text02.steps, runUntilFailure, runFrom, h1, h2, h3, h4, h5, h6,
      h7]
  by_cases h8 : e.uniform_color = -1
  · simp [text02.init_resources, text02.steps, runUntilFailure, runFrom, h1, h2, h3, h4, h5, h6,
      h7, h8]
  · simp [text02.init_resources, text02.steps, runUntilFailure, runFrom, h1, h2, h3, h4, h5, h6,
      h7, h8]

theorem text02_init_one_iff (e : text02.Env) :
    (text02.init_resources e).1 = 1 ↔
      (e.FT_Init_FreeType = 0 ∧ e.FT_New_Face = 0 ∧ text02.create_shader e.vs ≠ 0 ∧
        text02.create_shader e.fs ≠ 0 ∧ e.link_ok ≠ 0 ∧ e.attribute_coord ≠ -1 ∧
        e.uniform_tex ≠ -1 ∧ e.uniform_color ≠ -1) := by
  simp only [text02.init_resources]
  split_ifs <;> simp_all

theorem text02_init_zero_or_one (e : text02.Env) :
    (text02.init_resources e).1 = 0 ∨ (text02.init_resources e).1 = 1 := by
  simp only [text02.init_resources]
  split_ifs <;> simp

theorem text02_init_no_loop (e : text02.Env) :
    text02.Call.glutMainLoop ∉ (text02.init_resources e).2 := by
  simp only [text02.init_resources]
  split_ifs <;> simp

theorem tut04_init_eq_run (e : tut04.Env) :
    tut04.init_resources e = runUntilFailure (tut04.steps e) := by
  by_cases h3 : e.vs = 0
  · simp [tut04.init_resources, tut04.steps, runUntilFailure, runFrom, h3]
  by_cases h4 : e.fs = 0
  · simp [tut04.init_resources, tut04.steps, runUntilFailure, runFrom, h3, h4]
  by_cases h5 : e.link_ok = 0
  · simp [tut04.init_resources, tut04.steps, runUntilFailure, runFrom, h3, h4, h5]
  by_cases h6 : e.attribute_coord3d = -1
  · simp [tut04.init_resources, tut04.steps, runUntilFailure, runFrom, h3, h4, h5, h6]
  by_cases h7 : e.attribute_v_color = -1
  · simp [tut04.init_resources, tut04.steps, runUntilFailure, runFrom, h3, h4, h5, h6, h7]
  by_cases h8 : e.uniform_m_transform = -1
  · simp [tut04.init_resources, tut04.steps, runUntilFailure, runFrom, h3, h4, h5, h6, h7, h8]
  · simp [tut04.init_resources, tut04.steps, runUntilFailure, runFrom, h3, h4, h5, h6, h7, h8]

theorem tut04_init_one_iff (e : tut04.Env) :
    (tut04.init_resources e).1 = 1 ↔
      (e.vs ≠ 0 ∧ e.fs ≠ 0 ∧ e.link_ok ≠ 0 ∧ e.attribute_coord3d ≠ -1 ∧
        e.attribute_v_color ≠ -1 ∧ e.uniform_m_transform ≠ -1) := by
  simp only [tut04.init_resources]
  split_ifs <;> simp_all

theorem tut04_init_zero_or_one (e : tut04.Env) :
    (tut04.init_resources e).1 = 0 ∨ (tut04.init_resources e).1 = 1 := by
  simp only [tut04.init_resources]
  split_ifs <;> simp

theorem tut04_init_no_loop (e : tut04.Env) :
    tut04.Call.mainLoop ∉ (tut04.init_resources e).2 := by
  simp only [tut04.init_resources]
  split_ifs <;> simp

theorem runFrom_first_failure {α : Type} (pre : List (α × Bool)) (c : α)
    (post : List (α × Bool)) (done : List α) (hpre : ∀ x ∈ pre, x.2 = true) :
    runFrom done (pre ++ (c, false) :: post) = (0, done ++ pre.map Prod.fst ++ [c]) := by
  induction pre generalizing done with
  | nil => simp [runFrom]
  | cons x rest ih =>
    obtain ⟨step, ok⟩ := x
    have hok : ok = true := hpre (step, ok) (List.mem_cons_self _ _)
    have hrest : ∀ y ∈ rest, y.2 = true := fun y hy => hpre y (List.mem_cons_of_mem _ hy)
    subst hok
    simp [runFrom, ih _ hrest]

theorem runFrom_all_ok {α : Type} (l : List (α × Bool)) (done : List α)
    (hl : ∀ x ∈ l, x.2 = true) : runFrom done l = (1, done ++ l.map Prod.fst) := by
  induction l generalizing done with
  | nil => simp [runFrom]
  | cons x rest ih =>
    obtain ⟨step, ok⟩ := x
    have hok : ok = true := hl (step, ok) (List.mem_cons_self _ _)
    have hrest : ∀ y ∈ rest, y.2 = true := fun y hy => hl y (List.mem_cons_of_mem _ hy)
    subst hok
    simp [runFrom, ih _ hrest]

/-- C6: in both programs `init_resources` makes its steps in order and returns 0 at the
first one that fails, making none of the later steps, and returns 1 when all succeed:
for text02 exactly when FreeType initialisation, font loading, both shaders, linking
and the lookups of `coord`, `tex` and `color` succeed, for tut04 exactly when both
shaders, linking and the lookups of `coord3d`, `v_color` and `m_transform` succeed;
`main` reaches the display loop only when `init_resources` returned non-zero. -/
theorem init_resources_first_failure (e : text02.Env) (t : tut04.Env) :
    (text02.init_resources e = runUntilFailure (text02.steps e) ∧
      (∀ pre c post, text02.steps e = pre ++ (c, false) :: post → (∀ x ∈ pre, x.2 = true) →
        text02.init_resources e = (0, pre.map Prod.fst ++ [c])) ∧
      ((text02.init_resources e).1 = 1 ↔
        (e.FT_Init_FreeType = 0 ∧ e.FT_New_Face = 0 ∧ text02.create_shader e.vs ≠ 0 ∧
          text02.create_shader e.fs ≠ 0 ∧ e.link_ok ≠ 0 ∧ e.attribute_coord ≠ -1 ∧
          e.uniform_tex ≠ -1 ∧ e.uniform_color ≠ -1)) ∧
      ((text02.init_resources e).1 = 0 ∨ (text02.init_resources e).1 = 1) ∧
      (text02.Call.glutMainLoop ∈ (text02.main e).2 ↔
        (e.glew_status = 0 ∧ e.GLEW_VERSION_2_0 = true ∧ (text02.init_resources e).1 ≠ 0))) ∧
    (tut04.init_resources t = runUntilFailure (tut04.steps t) ∧
      (∀ pre c post, tut04.steps t = pre ++ (c, false) :: post → (∀ x ∈ pre, x.2 = true) →
        tut04.init_resources t = (0, pre.map Prod.fst ++ [c])) ∧
      ((tut04.init_resources t).1 = 1 ↔
        (t.vs ≠ 0 ∧ t.fs ≠ 0 ∧ t.link_ok ≠ 0 ∧ t.attribute_coord3d ≠ -1 ∧
          t.attribute_v_color ≠ -1 ∧ t.uniform_m_transform ≠ -1)) ∧
      ((tut04.init_resources t).1 = 0 ∨ (tut04.init_resources t).1 = 1) ∧
      (tut04.Call.mainLoop ∈ (tut04.main t).2 ↔
        (t.context = true ∧ (tut04.init_resources t).1 ≠ 0))) := by
  refine ⟨⟨text02_init_eq_run e, ?_, text02_init_one_iff e, text02_init_zero_or_one e, ?_⟩,
    ⟨tut04_init_eq_run t, ?_, tut04_init_one_iff t, tut04_init_zero_or_one t, ?_⟩⟩
  · intro pre c post hsteps hpre
    rw [text02_init_eq_run, hsteps, runUntilFailure, runFrom_first_failure pre c post [] hpre]
    simp
  · have hno := text02_init_no_loop e
    by_cases hg : e.glew_status = 0
    · by_cases hv : e.GLEW_VERSION_2_0 = true
      · by_cases hr : (text02.init_resources e).1 = 0
        · simp [text02.main, hg, hv, hr, hno]
        · simp [text02.main, hg, hv, hr]
      · simp [text02.main, hg, hv]
    · simp [text02.main, hg]
  · intro pre c post hsteps hpre
    rw [tut04_init_eq_run, hsteps, runUntilFailure, runFrom_first_failure pre c post [] hpre]
    simp
  · have hno := tut04_init_no_loop t
    by_cases hc : t.context = true
    · by_cases hr : (tut04.init_resources t).1 = 0
      · simp [tut04.main, hc, hr, hno]
      · simp [tut04.main, hc, hr]
    · simp [tut04.main, hc]

/-- In the environments `sampleEnv` every step succeeds, so both functions return 1. -/
theorem init_resources_first_failure_witness :
    (text02.init_resources text02.sampleEnv).1 = 1 ∧
      (tut04.init_resources tut04.sampleEnv).1 = 1 :=
  have h := init_resources_first_failure text02.sampleEnv tut04.sampleEnv
  ⟨h.1.2.2.1.mpr (by decide), h.2.2.2.1.mpr (by decide)⟩

/-- When the vertex shader file is missing, `init_resources` of text02 returns 0 right
after the first `create_shader` call, and `main` does not reach the display loop. -/
theorem text02_missing_shader :
    text02.init_resources text02.missingShaderEnv
        = (0, [text02.Call.FT_Init_FreeType, text02.Call.FT_New_Face,
            text02.Call.new_atlas 48, text02.Call.new_atlas 24, text02.Call.new_atlas 12,
            text02.Call.create_shader "text.v.glsl"]) ∧
      text02.Call.glutMainLoop ∉ (text02.main text02.missingShaderEnv).2 := by
  constructor
  · rfl
  · decide
